import Mathlib

/-!
Shallow embedding of the tefla repository's `core/gan_metrics.py` and
`core/prediction.py`, with theorems checking the specification's claims
against the embedded code.

Conventions used throughout:
* machine floating point is idealised as exact real arithmetic (`ℝ`); the
  widening casts `tf.to_double` / final `tf.cast` in the source are then
  identities and are noted in comments where they occur;
* a batch of images is a `List` of images, an activation matrix is a list of
  rows; `tf.split / tf.stack / tf.map_fn / tf.unstack / tf.concat` become the
  corresponding list operations;
* tensor-engine primitives that the repository treats as opaque external
  collaborators (`tf.svd`, `tf.image.resize_bilinear`) are modelled by their
  documented contracts: the SVD result is passed in as data together with the
  contract it satisfies, and resize is an abstract function assumed to
  preserve constant images (any convex-combination interpolation does).
-/

namespace Tefla

open scoped Matrix

/-- `tf.split(l, num_or_size_splits = n)` helper: `splitList l n k` cuts `l`
into `n` consecutive chunks of `k` elements each. -/
def splitList : List α → ℕ → ℕ → List (List α)
  | _, 0, _ => []
  | l, n + 1, k => l.take k :: splitList (l.drop k) n k

/-- `tf.split(l, num_or_size_splits = n)`: `n` chunks of `l.length / n`
elements (TensorFlow requires `n` to divide the length evenly). -/
def tfSplit (l : List α) (n : ℕ) : List (List α) :=
  splitList l n (l.length / n)

theorem splitList_length (l : List α) (n k : ℕ) : (splitList l n k).length = n := by
  induction n generalizing l with
  | zero => rfl
  | succ m ih => simp [splitList, ih]

theorem join_splitList (l : List α) (n k : ℕ) (h : l.length = n * k) :
    (splitList l n k).flatten = l := by
  induction n generalizing l with
  | zero =>
    have : l = [] := List.eq_nil_of_length_eq_zero (by simpa using h)
    simp [this, splitList]
  | succ m ih =>
    have hdrop : (l.drop k).length = m * k := by
      simp [List.length_drop, h, Nat.succ_mul]
    simp only [splitList, List.flatten_cons, ih (l.drop k) hdrop, List.take_append_drop]

theorem join_tfSplit (l : List α) (n : ℕ) (hd : n ∣ l.length) :
    (tfSplit l n).flatten = l :=
  join_splitList l n (l.length / n) (Nat.eq_mul_of_div_eq_right hd rfl)

/-- Mean of a list of reals (`tf.reduce_mean` on a 1-D tensor). -/
noncomputable def meanR (l : List ℝ) : ℝ := l.sum / l.length

/-- `tf.reduce_mean(x, axis=0)` on a 2-D tensor given as a list of rows:
column-wise mean. -/
noncomputable def colMean (x : List (List ℝ)) : List ℝ :=
  x.transpose.map meanR

/-- `tf.nn.softmax` on one row of logits. -/
noncomputable def softmaxRow (r : List ℝ) : List ℝ :=
  r.map fun x => Real.exp x / (r.map Real.exp).sum

/-- `tf.nn.log_softmax` on one row of logits. -/
noncomputable def logSoftmaxRow (r : List ℝ) : List ℝ :=
  r.map fun x => x - Real.log (r.map Real.exp).sum

/-- One row of `p * (log_softmax(p_logits) - tf.log(q))`, summed
(`tf.reduce_sum(..., axis=1)`), i.e. the per-example KL value computed by
`_kl_divergence` (`gan_metrics.py` line 134). -/
noncomputable def rowKl (p lsm q : List ℝ) : ℝ :=
  (List.zipWith (fun a b => a * b) p
    (List.zipWith (fun b c => b - Real.log c) lsm q)).sum

/-- The scalar score computed by `classifier_score` from the concatenated
logits matrix (`gan_metrics.py` lines 260-276): softmax probabilities `p`,
batch-mean prior `q`, per-row KL, `exp` of the mean KL.  The
`tf.to_double` upcast and final `tf.cast` back are identities over `ℝ`. -/
noncomputable def scoreOfLogits (L : List (List ℝ)) : ℝ :=
  let p := L.map softmaxRow
  let q := colMean p
  let kl := List.zipWith (fun pr lr => rowKl pr (logSoftmaxRow lr) q) p L
  Real.exp (meanR kl)

/-- `classifier_score(images, classifier_fn, num_batches)`
(`gan_metrics.py` lines 230-276): split the batch into `num_batches` chunks,
map the classifier over the chunk list (`tf.map_fn` over `tf.stack`),
concatenate the per-chunk logits back (`tf.concat(tf.unstack(...), 0)`), and
score the resulting logits matrix. -/
noncomputable def classifier_score (images : List α) (f : List α → List (List ℝ))
    (n : ℕ) : ℝ :=
  scoreOfLogits (((tfSplit images n).map f).flatten)

/-- For a classifier applied image-wise, the concatenated logits do not
depend on the split count (provided it divides the batch size). -/
theorem logits_split_invariant {β : Type} (g : α → β) (l : List α) (n : ℕ)
    (hd : n ∣ l.length) :
    ((tfSplit l n).map (List.map g)).flatten = l.map g := by
  rw [← List.map_flatten, join_tfSplit l n hd]

/-- C1: for a fixed classifier (a per-image logits function `g`, lifted to
image chunks the way `tf.map_fn` applies `classifier_fn` to each chunk) and a
fixed input batch whose size each split count divides, `classifier_score`
returns the same scalar `exp(mean KL(p_i || q))` for any two split counts: the
score is invariant to how the batch is split, because the prior `q` is taken
over the re-concatenated full logits matrix. -/
theorem claim_C1 {α : Type} (g : α → List ℝ) (images : List α) (n₁ n₂ : ℕ)
    (hd₁ : n₁ ∣ images.length) (hd₂ : n₂ ∣ images.length) :
    classifier_score images (List.map g) n₁ = classifier_score images (List.map g) n₂ := by
  unfold classifier_score
  rw [logits_split_invariant g images n₁ hd₁, logits_split_invariant g images n₂ hd₂]

/-- C1 witness: a concrete batch of four images split into 2 chunks versus 1
chunk (the `num_batches ∈ {1, 2, 4}` cases of the claim are instances). -/
theorem claim_C1_witness :
    (2 : ℕ) ∣ ([0, 1, 2, 3] : List ℕ).length ∧ (1 : ℕ) ∣ ([0, 1, 2, 3] : List ℕ).length ∧
    classifier_score [0, 1, 2, 3] (List.map fun i : ℕ => [(i : ℝ), 0]) 2 =
      classifier_score [0, 1, 2, 3] (List.map fun i : ℕ => [(i : ℝ), 0]) 1 :=
  ⟨by decide, by decide,
    claim_C1 (fun i : ℕ => [(i : ℝ), 0]) [0, 1, 2, 3] 2 1 (by decide) (by decide)⟩

/-! ## Symmetric matrix square root (`_symmetric_matrix_square_root`) -/

/-- The default `eps = 1e-10` of `_symmetric_matrix_square_root`. -/
noncomputable def EPS : ℝ := 1 / 10 ^ 10

/-- `si = tf.where(tf.less(s, eps), s, tf.sqrt(s))` (`gan_metrics.py` line 69):
singular values below `eps` are passed through un-square-rooted. -/
noncomputable def clampSqrt (eps : ℝ) (s : Fin d → ℝ) : Fin d → ℝ :=
  fun i => if s i < eps then s i else Real.sqrt (s i)

/-- The data returned by the tensor engine's `tf.svd(mat)` call: singular
values `s` and the factor matrices `u`, `v` (TF returns `v`, not `vᵀ`).
`tf.svd` belongs to the opaque tensor library, so the decomposition enters the
embedding as data; theorems assume the contract it satisfies. -/
structure SVD (d : ℕ) where
  u : Matrix (Fin d) (Fin d) ℝ
  s : Fin d → ℝ
  v : Matrix (Fin d) (Fin d) ℝ

/-- `_symmetric_matrix_square_root(mat, eps)` (`gan_metrics.py` lines 53-73)
after the engine returned `sv = tf.svd(mat)`:
`tf.matmul(tf.matmul(u, tf.diag(si)), v, transpose_b=True)`. -/
noncomputable def symmetric_matrix_square_root (sv : SVD d) (eps : ℝ) :
    Matrix (Fin d) (Fin d) ℝ :=
  sv.u * Matrix.diagonal (clampSqrt eps sv.s) * sv.vᵀ

/-- The contract `tf.svd(M)` satisfies on a symmetric PSD matrix `M` whose
spectrum lies above `EPS`: `M = u diag(s) uᵀ` with `u` orthogonal and `v = u`
(for a symmetric PSD matrix with positive singular values every SVD has equal
factors), and every singular value at least `EPS`. -/
def SVDok (sv : SVD d) (M : Matrix (Fin d) (Fin d) ℝ) : Prop :=
  M = sv.u * Matrix.diagonal sv.s * sv.uᵀ ∧ sv.v = sv.u ∧
    sv.uᵀ * sv.u = 1 ∧ ∀ i, EPS ≤ sv.s i

theorem EPS_pos : (0 : ℝ) < EPS := by norm_num [EPS]

theorem clampSqrt_eq_sqrt (eps : ℝ) (s : Fin d → ℝ) (hs : ∀ i, eps ≤ s i) :
    clampSqrt eps s = fun i => Real.sqrt (s i) := by
  funext i
  simp [clampSqrt, not_lt.mpr (hs i)]

/-- C2: for every symmetric PSD matrix with all eigenvalues at least `eps`
— presented through its spectral data `M = u diag(s) uᵀ`, `u` orthogonal,
`s ≥ eps`, which is exactly what `tf.svd` returns on such a matrix — the
result of `_symmetric_matrix_square_root` squares back to `M`; applied to the
identity matrix (SVD `u = v = 1`, `s = 1`) it returns the identity; and any
singular value below `eps` is passed through un-square-rooted. -/
theorem claim_C2 {d : ℕ} (u : Matrix (Fin d) (Fin d) ℝ) (s : Fin d → ℝ) (eps : ℝ)
    (hu : uᵀ * u = 1) (heps : 0 ≤ eps) (hs : ∀ i, eps ≤ s i) :
    symmetric_matrix_square_root ⟨u, s, u⟩ eps * symmetric_matrix_square_root ⟨u, s, u⟩ eps
        = u * Matrix.diagonal s * uᵀ ∧
      symmetric_matrix_square_root (d := d) ⟨1, fun _ => 1, 1⟩ EPS = 1 ∧
      ∀ (e : ℝ) (t : Fin d → ℝ) (i : Fin d), t i < e → clampSqrt e t i = t i := by
  refine ⟨?_, ?_, ?_⟩
  · have hsq : Matrix.diagonal (clampSqrt eps s) * Matrix.diagonal (clampSqrt eps s)
        = Matrix.diagonal s := by
      rw [Matrix.diagonal_mul_diagonal]
      have h : (fun i => clampSqrt eps s i * clampSqrt eps s i) = s := by
        funext i
        have hge : ¬ s i < eps := not_lt.mpr (hs i)
        simp only [clampSqrt, if_neg hge]
        exact Real.mul_self_sqrt (le_trans heps (hs i))
      rw [h]
    calc (u * Matrix.diagonal (clampSqrt eps s) * uᵀ) *
          (u * Matrix.diagonal (clampSqrt eps s) * uᵀ)
        = u * Matrix.diagonal (clampSqrt eps s) * (uᵀ * u) *
            Matrix.diagonal (clampSqrt eps s) * uᵀ := by
          simp only [Matrix.mul_assoc]
      _ = u * (Matrix.diagonal (clampSqrt eps s) * Matrix.diagonal (clampSqrt eps s)) * uᵀ := by
          rw [hu]
          simp only [Matrix.mul_assoc, Matrix.mul_one]
      _ = u * Matrix.diagonal s * uᵀ := by rw [hsq]
  · have hone : clampSqrt EPS (fun _ : Fin d => (1 : ℝ)) = fun _ => 1 := by
      funext i
      have : ¬ (1 : ℝ) < EPS := by norm_num [EPS]
      simp [clampSqrt, this]
    simp [symmetric_matrix_square_root, hone]
  · intro e t i hlt
    simp [clampSqrt, hlt]

/-- C2 witness: the 1×1 matrix `[[2]]` with SVD `u = v = 1`, `s = 2`. -/
theorem claim_C2_witness :
    ((1 : Matrix (Fin 1) (Fin 1) ℝ)ᵀ * 1 = 1) ∧ (0 : ℝ) ≤ EPS ∧
      (∀ i : Fin 1, EPS ≤ (fun _ : Fin 1 => (2 : ℝ)) i) ∧
      symmetric_matrix_square_root ⟨1, fun _ => 2, 1⟩ EPS *
          symmetric_matrix_square_root ⟨1, fun _ => 2, 1⟩ EPS
        = (1 : Matrix (Fin 1) (Fin 1) ℝ) * Matrix.diagonal (fun _ => 2) *
            (1 : Matrix (Fin 1) (Fin 1) ℝ)ᵀ := by
  have h1 : (1 : Matrix (Fin 1) (Fin 1) ℝ)ᵀ * 1 = 1 := by simp
  have h2 : (0 : ℝ) ≤ EPS := le_of_lt EPS_pos
  have h3 : ∀ i : Fin 1, EPS ≤ (fun _ : Fin 1 => (2 : ℝ)) i := by
    intro i
    norm_num [EPS]
  exact ⟨h1, h2, h3, (claim_C2 1 (fun _ => 2) EPS h1 h2 h3).1⟩

/-! ## Matrix helpers for the Fréchet distance theorems -/

/-- `u * diagonal c * uᵀ`: the shape of every matrix built by
`_symmetric_matrix_square_root` from an SVD. -/
noncomputable def conjDiag (u : Matrix (Fin d) (Fin d) ℝ) (c : Fin d → ℝ) :
    Matrix (Fin d) (Fin d) ℝ :=
  u * Matrix.diagonal c * uᵀ

theorem conjTranspose_eq_transpose_real (A : Matrix (Fin d) (Fin d) ℝ) : Aᴴ = Aᵀ := by
  ext i j
  simp [Matrix.conjTranspose_apply]

theorem conjDiag_transpose (u : Matrix (Fin d) (Fin d) ℝ) (c : Fin d → ℝ) :
    (conjDiag u c)ᵀ = conjDiag u c := by
  simp [conjDiag, Matrix.transpose_mul, Matrix.mul_assoc]

theorem conjDiag_mul (u : Matrix (Fin d) (Fin d) ℝ) (hu : uᵀ * u = 1) (c c' : Fin d → ℝ) :
    conjDiag u c * conjDiag u c' = conjDiag u (fun i => c i * c' i) := by
  unfold conjDiag
  calc u * Matrix.diagonal c * uᵀ * (u * Matrix.diagonal c' * uᵀ)
      = u * Matrix.diagonal c * (uᵀ * u) * Matrix.diagonal c' * uᵀ := by
        simp only [Matrix.mul_assoc]
    _ = u * (Matrix.diagonal c * Matrix.diagonal c') * uᵀ := by
        rw [hu]
        simp only [Matrix.mul_assoc, Matrix.mul_one]
    _ = u * Matrix.diagonal (fun i => c i * c' i) * uᵀ := by
        rw [Matrix.diagonal_mul_diagonal]

theorem conjDiag_one (u : Matrix (Fin d) (Fin d) ℝ) (hu : uᵀ * u = 1) :
    conjDiag u (fun _ => 1) = 1 := by
  have huu : u * uᵀ = 1 := Matrix.mul_eq_one_comm.mp hu
  simp [conjDiag, huu]

theorem conjDiag_trace (u : Matrix (Fin d) (Fin d) ℝ) (hu : uᵀ * u = 1) (c : Fin d → ℝ) :
    (conjDiag u c).trace = ∑ i, c i := by
  unfold conjDiag
  rw [Matrix.trace_mul_cycle, hu, Matrix.one_mul, Matrix.trace_diagonal]

theorem conjDiag_posSemidef (u : Matrix (Fin d) (Fin d) ℝ) (hu : uᵀ * u = 1)
    (c : Fin d → ℝ) (hc : ∀ i, 0 ≤ c i) : (conjDiag u c).PosSemidef := by
  have hsplit : conjDiag u c =
      conjDiag u (fun i => Real.sqrt (c i)) * (conjDiag u (fun i => Real.sqrt (c i)))ᴴ := by
    rw [conjTranspose_eq_transpose_real, conjDiag_transpose, conjDiag_mul u hu]
    have h : (fun i => Real.sqrt (c i) * Real.sqrt (c i)) = c :=
      funext fun i => Real.mul_self_sqrt (hc i)
    rw [h]
  rw [hsplit]
  exact Matrix.posSemidef_self_mul_conjTranspose _

/-- `tf.norm` of a vector: the Euclidean norm (`gan_metrics.py` line 401). -/
noncomputable def tfNorm (v : Fin d → ℝ) : ℝ := Real.sqrt (∑ i, v i ^ 2)

/-- `tf.reduce_mean(acts, 0)`: mean activation row. -/
noncomputable def actMean (acts : List (Fin d → ℝ)) : Fin d → ℝ :=
  fun i => (acts.map fun r => r i).sum / acts.length

/-- `tf.matmul(X - m, X - m, transpose_a=True) / (N - 1)`
(`gan_metrics.py` lines 387-389): note that the normaliser `N` is an
argument, because the source uses `num_examples = tf.shape(real_a)[0]` for
both covariance matrices. -/
noncomputable def covWith (acts : List (Fin d → ℝ)) (m : Fin d → ℝ) (N : ℝ) :
    Matrix (Fin d) (Fin d) ℝ :=
  Matrix.of fun i j => (acts.map fun r => (r i - m i) * (r j - m j)).sum / (N - 1)

/-- The spec's Distribution Summary covariance: centred outer product of one
activation set normalised by that same set's unbiased `(N - 1)` factor. -/
noncomputable def covUnbiased (acts : List (Fin d → ℝ)) : Matrix (Fin d) (Fin d) ℝ :=
  covWith acts (actMean acts) acts.length

/-- `trace_sqrt_product(sigma, sigma_v)` (`gan_metrics.py` lines 284-319):
`sqrt_sigma = _symmetric_matrix_square_root(sigma)` is the engine SVD `svA`;
the returned value is `tf.trace(_symmetric_matrix_square_root(sqrt_a_sigmav_a))`
where `sqrt_a_sigmav_a = tf.matmul(sqrt_sigma, tf.matmul(sigma_v, sqrt_sigma))`
is decomposed by the engine SVD `svB`.  Theorems carry the contract tying
`svA` to `sigma` and `svB` to `sqrt_a_sigmav_a`. -/
noncomputable def trace_sqrt_product (_svA svB : SVD d) : ℝ :=
  (symmetric_matrix_square_root svB EPS).trace

/-- `frechet_classifier_distance(real_images, generated_images, classifier_fn,
num_batches)` (`gan_metrics.py` lines 322-406).  The two image batches are
split into `n` chunks each, stacked into one list, mapped through the
classifier, split back (`tf.split(activations, [n, n], 0)`) and
re-concatenated; means and covariances are taken (`num_examples` comes from
`real_a` for both, as in the source), and the score is assembled.  The
`tf.to_double` upcast and the final `tf.cast` are identities over `ℝ`;
`sv1, sv2` are the engine's SVD results for `sigma` and `sqrt_a_sigmav_a`. -/
noncomputable def frechet_classifier_distance (real gen : List α)
    (f : List α → List (Fin d → ℝ)) (n : ℕ) (sv1 sv2 : SVD d) : ℝ :=
  let chunks := (tfSplit real n ++ tfSplit gen n).map f
  let real_a := (chunks.take n).flatten
  let gen_a := (chunks.drop n).flatten
  let m := actMean real_a
  let m_v := actMean gen_a
  let num_examples : ℝ := real_a.length
  let sigma := covWith real_a m num_examples
  let sigma_v := covWith gen_a m_v num_examples
  (sigma + sigma_v).trace - 2 * trace_sqrt_product sv1 sv2 +
    tfNorm (fun i => m i - m_v i) ^ 2

theorem chunks_take (real gen : List α) (f : List α → List β) (n : ℕ) :
    (((tfSplit real n ++ tfSplit gen n).map f).take n) = (tfSplit real n).map f := by
  rw [List.map_append]
  exact List.take_left' (by simp [splitList_length, tfSplit])

theorem chunks_drop (real gen : List α) (f : List α → List β) (n : ℕ) :
    (((tfSplit real n ++ tfSplit gen n).map f).drop n) = (tfSplit gen n).map f := by
  rw [List.map_append]
  exact List.drop_left' (by simp [splitList_length, tfSplit])

theorem sqrt_of_SVDok {M : Matrix (Fin d) (Fin d) ℝ} {sv : SVD d} (h : SVDok sv M) :
    symmetric_matrix_square_root sv EPS = conjDiag sv.u fun i => Real.sqrt (sv.s i) := by
  obtain ⟨hM, hv, hu, hs⟩ := h
  unfold symmetric_matrix_square_root conjDiag
  rw [hv, clampSqrt_eq_sqrt EPS sv.s hs]

theorem sq_of_SVDok {M : Matrix (Fin d) (Fin d) ℝ} {sv : SVD d} (h : SVDok sv M) :
    symmetric_matrix_square_root sv EPS * symmetric_matrix_square_root sv EPS = M := by
  obtain ⟨hM, hv, hu, hs⟩ := h
  have hnn : ∀ i, (0 : ℝ) ≤ sv.s i := fun i => le_trans (le_of_lt EPS_pos) (hs i)
  rw [sqrt_of_SVDok ⟨hM, hv, hu, hs⟩, conjDiag_mul sv.u hu]
  have hss : (fun i => Real.sqrt (sv.s i) * Real.sqrt (sv.s i)) = sv.s :=
    funext fun i => Real.mul_self_sqrt (hnn i)
  rw [hss]
  exact hM.symm

theorem transpose_of_SVDok {M : Matrix (Fin d) (Fin d) ℝ} {sv : SVD d} (h : SVDok sv M) :
    (symmetric_matrix_square_root sv EPS)ᵀ = symmetric_matrix_square_root sv EPS := by
  rw [sqrt_of_SVDok h, conjDiag_transpose]

theorem posSemidef_of_SVDok {M : Matrix (Fin d) (Fin d) ℝ} {sv : SVD d} (h : SVDok sv M) :
    (symmetric_matrix_square_root sv EPS).PosSemidef := by
  rw [sqrt_of_SVDok h]
  exact conjDiag_posSemidef sv.u h.2.2.1 _ fun i => Real.sqrt_nonneg _

/-- The explicit inverse of the square root built from spectral data with
spectrum at least `EPS > 0`. -/
noncomputable def sqrtInv (sv : SVD d) : Matrix (Fin d) (Fin d) ℝ :=
  conjDiag sv.u fun i => (Real.sqrt (sv.s i))⁻¹

theorem sqrt_mul_sqrtInv {M : Matrix (Fin d) (Fin d) ℝ} {sv : SVD d} (h : SVDok sv M) :
    symmetric_matrix_square_root sv EPS * sqrtInv sv = 1 ∧
      sqrtInv sv * symmetric_matrix_square_root sv EPS = 1 := by
  obtain ⟨hM, hv, hu, hs⟩ := h
  have hpos : ∀ i, (0 : ℝ) < Real.sqrt (sv.s i) :=
    fun i => Real.sqrt_pos.mpr (lt_of_lt_of_le EPS_pos (hs i))
  have h1 : (fun i => Real.sqrt (sv.s i) * (Real.sqrt (sv.s i))⁻¹) = fun _ => (1 : ℝ) :=
    funext fun i => mul_inv_cancel₀ (ne_of_gt (hpos i))
  have h2 : (fun i => (Real.sqrt (sv.s i))⁻¹ * Real.sqrt (sv.s i)) = fun _ => (1 : ℝ) :=
    funext fun i => inv_mul_cancel₀ (ne_of_gt (hpos i))
  constructor
  · rw [sqrt_of_SVDok ⟨hM, hv, hu, hs⟩, sqrtInv, conjDiag_mul sv.u hu, h1, conjDiag_one sv.u hu]
  · rw [sqrt_of_SVDok ⟨hM, hv, hu, hs⟩, sqrtInv, conjDiag_mul sv.u hu, h2, conjDiag_one sv.u hu]

theorem sqrtInv_transpose (sv : SVD d) : (sqrtInv sv)ᵀ = sqrtInv sv :=
  conjDiag_transpose _ _

/-- Evaluation of the Fréchet pipeline for an image-wise classifier and split
counts dividing the batch sizes: the stacked chunked activations reduce to the
two mapped activation matrices. -/
theorem frechet_eval {α : Type} {d : ℕ} (real gen : List α) (g : α → (Fin d → ℝ)) (n : ℕ)
    (sv1 sv2 : SVD d) (hd1 : n ∣ real.length) (hd2 : n ∣ gen.length) :
    frechet_classifier_distance real gen (List.map g) n sv1 sv2 =
      (covWith (real.map g) (actMean (real.map g)) (real.map g).length +
          covWith (gen.map g) (actMean (gen.map g)) (real.map g).length).trace
        - 2 * trace_sqrt_product sv1 sv2 +
        tfNorm (fun i => actMean (real.map g) i - actMean (gen.map g) i) ^ 2 := by
  simp only [frechet_classifier_distance, chunks_take, chunks_drop,
    logits_split_invariant g real n hd1, logits_split_invariant g gen n hd2]

/-- C3: `frechet_classifier_distance` computes mean and covariance
independently for the real and generated activations — each covariance equal
to the one normalised by its own unbiased `(N-1)` factor (the source divides
both by the count of `real_a`, and the stacked `tf.map_fn` pass forces the
two counts to be equal, hypothesis `hlen`) — and returns
`trace(Σ + Σ_v) - 2·trace(sqrt(Σ·Σ_v)) + ‖m - m_v‖²`, where the middle term
is the trace of a square root `X` of `Σ·Σ_v` (the code obtains it as
`trace(sqrt(A·Σ_v·A))` with `A = sqrt(Σ)`; `X = A⁻¹·(that sqrt)·A` conjugates
back).  The two `tf.svd` calls enter as `sv1`, `sv2` with their contracts. -/
theorem claim_C3 {α : Type} {d : ℕ} (real gen : List α) (g : α → (Fin d → ℝ)) (n : ℕ)
    (sv1 sv2 : SVD d) (hlen : real.length = gen.length)
    (hd1 : n ∣ real.length) (hd2 : n ∣ gen.length)
    (hv1 : SVDok sv1 (covUnbiased (real.map g)))
    (hv2 : SVDok sv2 (symmetric_matrix_square_root sv1 EPS *
        (covUnbiased (gen.map g) * symmetric_matrix_square_root sv1 EPS))) :
    ∃ X : Matrix (Fin d) (Fin d) ℝ,
      X * X = covUnbiased (real.map g) * covUnbiased (gen.map g) ∧
      frechet_classifier_distance real gen (List.map g) n sv1 sv2 =
        (covUnbiased (real.map g) + covUnbiased (gen.map g)).trace
          - 2 * X.trace
          + ∑ i, (actMean (real.map g) i - actMean (gen.map g) i) ^ 2 := by
  set A := symmetric_matrix_square_root sv1 EPS with hA
  set R := symmetric_matrix_square_root sv2 EPS with hR
  have hAA : A * A = covUnbiased (real.map g) := sq_of_SVDok hv1
  have hRR : R * R = A * (covUnbiased (gen.map g) * A) := sq_of_SVDok hv2
  have hinv := sqrt_mul_sqrtInv hv1
  refine ⟨A * R * sqrtInv sv1, ?_, ?_⟩
  · calc A * R * sqrtInv sv1 * (A * R * sqrtInv sv1)
        = A * R * (sqrtInv sv1 * A) * R * sqrtInv sv1 := by
          simp only [Matrix.mul_assoc]
      _ = A * (R * R) * sqrtInv sv1 := by
          rw [hinv.2]
          simp only [Matrix.mul_assoc, Matrix.one_mul]
      _ = A * A * (covUnbiased (gen.map g) * (A * sqrtInv sv1)) := by
          rw [hRR]
          simp only [Matrix.mul_assoc]
      _ = covUnbiased (real.map g) * covUnbiased (gen.map g) := by
          rw [hinv.1, hAA]
          simp only [Matrix.mul_one]
  · have htr : (A * R * sqrtInv sv1).trace = R.trace := by
      have hia : sqrtInv sv1 * A = 1 := hinv.2
      rw [Matrix.trace_mul_cycle, hia, Matrix.one_mul]
    rw [frechet_eval real gen g n sv1 sv2 hd1 hd2, htr]
    have hcov : covWith (gen.map g) (actMean (gen.map g)) ((real.map g).length : ℕ) =
        covUnbiased (gen.map g) := by
      unfold covUnbiased
      rw [List.length_map, List.length_map, hlen]
    have hnorm : tfNorm (fun i => actMean (real.map g) i - actMean (gen.map g) i) ^ 2 =
        ∑ i, (actMean (real.map g) i - actMean (gen.map g) i) ^ 2 := by
      unfold tfNorm
      exact Real.sq_sqrt (Finset.sum_nonneg fun i _ => sq_nonneg _)
    rw [hcov, hnorm]
    rfl

/-- C3 witness: real activations `[0,1,2]` (covariance 1), generated
`[0,2,4]` (covariance 4), feature dimension 1, split count 1, with the
concrete SVDs of `sigma = [[1]]` and `sqrt_a_sigmav_a = [[4]]`. -/
theorem claim_C3_witness :
    ([0, 1, 2] : List ℝ).length = ([0, 2, 4] : List ℝ).length ∧
    SVDok ⟨1, fun _ => 1, 1⟩
        (covUnbiased (([0, 1, 2] : List ℝ).map fun x (_ : Fin 1) => x)) ∧
    SVDok ⟨1, fun _ => 4, 1⟩
        (symmetric_matrix_square_root ⟨1, fun _ => 1, 1⟩ EPS *
          (covUnbiased (([0, 2, 4] : List ℝ).map fun x (_ : Fin 1) => x) *
            symmetric_matrix_square_root ⟨1, fun _ => 1, 1⟩ EPS)) ∧
    ∃ X : Matrix (Fin 1) (Fin 1) ℝ,
      X * X = covUnbiased (([0, 1, 2] : List ℝ).map fun x (_ : Fin 1) => x) *
          covUnbiased (([0, 2, 4] : List ℝ).map fun x (_ : Fin 1) => x) ∧
      frechet_classifier_distance [0, 1, 2] [0, 2, 4]
          (List.map fun x (_ : Fin 1) => x) 1 ⟨1, fun _ => 1, 1⟩ ⟨1, fun _ => 4, 1⟩ =
        (covUnbiased (([0, 1, 2] : List ℝ).map fun x (_ : Fin 1) => x) +
            covUnbiased (([0, 2, 4] : List ℝ).map fun x (_ : Fin 1) => x)).trace
          - 2 * (X.trace)
          + ∑ i, (actMean (([0, 1, 2] : List ℝ).map fun x (_ : Fin 1) => x) i -
              actMean (([0, 2, 4] : List ℝ).map fun x (_ : Fin 1) => x) i) ^ 2 := by
  have hcov1 : covUnbiased (([0, 1, 2] : List ℝ).map fun x (_ : Fin 1) => x) =
      (1 : Matrix (Fin 1) (Fin 1) ℝ) * Matrix.diagonal (fun _ => 1) *
        (1 : Matrix (Fin 1) (Fin 1) ℝ)ᵀ := by
    ext i j
    fin_cases i
    fin_cases j
    simp [covUnbiased, covWith, actMean]
    norm_num
  have hcov2 : covUnbiased (([0, 2, 4] : List ℝ).map fun x (_ : Fin 1) => x) =
      Matrix.diagonal (fun _ => 4) := by
    ext i j
    fin_cases i
    fin_cases j
    simp [covUnbiased, covWith, actMean]
    norm_num
  have hA : symmetric_matrix_square_root (⟨1, fun _ => 1, 1⟩ : SVD 1) EPS = 1 := by
    have hone : clampSqrt EPS (fun _ : Fin 1 => (1 : ℝ)) = fun _ => 1 := by
      funext i
      have : ¬ (1 : ℝ) < EPS := by norm_num [EPS]
      simp [clampSqrt, this]
    simp [symmetric_matrix_square_root, hone]
  have h1 : SVDok ⟨1, fun _ => 1, 1⟩
      (covUnbiased (([0, 1, 2] : List ℝ).map fun x (_ : Fin 1) => x)) := by
    refine ⟨?_, rfl, by simp, ?_⟩
    · exact hcov1
    · intro i
      norm_num [EPS]
  have h2 : SVDok ⟨1, fun _ => 4, 1⟩
      (symmetric_matrix_square_root ⟨1, fun _ => 1, 1⟩ EPS *
        (covUnbiased (([0, 2, 4] : List ℝ).map fun x (_ : Fin 1) => x) *
          symmetric_matrix_square_root ⟨1, fun _ => 1, 1⟩ EPS)) := by
    refine ⟨?_, rfl, by simp, ?_⟩
    · rw [hA, hcov2]
      simp
    · intro i
      norm_num [EPS]
  exact ⟨rfl, h1, h2,
    claim_C3 [0, 1, 2] [0, 2, 4] (fun x (_ : Fin 1) => x) 1 ⟨1, fun _ => 1, 1⟩
      ⟨1, fun _ => 4, 1⟩ rfl (by decide) (by decide) h1 h2⟩

/-- If symmetric PSD matrices `R` and `Rp` square to `M·Mᵀ` and `Mᵀ·M`
respectively and `Rp` is invertible, then `R` and `Rp` have the same trace:
the heart of `frechet_classifier_distance`'s symmetry in its two image
arguments.  `Q := M·Rp⁻¹` is orthogonal, `Q·Rp·Qᵀ` is a PSD square root of
`M·Mᵀ`, and the PSD square root is unique. -/
theorem trace_psd_sqrt_prod {d : ℕ} (R Rp M Rpinv : Matrix (Fin d) (Fin d) ℝ)
    (hR : R.PosSemidef) (hRp : Rp.PosSemidef)
    (hRsq : R * R = M * Mᵀ) (hRpsq : Rp * Rp = Mᵀ * M)
    (h1 : Rp * Rpinv = 1) (h2 : Rpinv * Rp = 1) (hsymInv : Rpinvᵀ = Rpinv) :
    R.trace = Rp.trace := by
  set Q := M * Rpinv with hQdef
  have hQT : Qᵀ = Rpinv * Mᵀ := by
    rw [hQdef, Matrix.transpose_mul, hsymInv]
  have hQ : Qᵀ * Q = 1 := by
    rw [hQT, hQdef]
    calc Rpinv * Mᵀ * (M * Rpinv)
        = Rpinv * (Mᵀ * M) * Rpinv := by simp only [Matrix.mul_assoc]
      _ = Rpinv * Rp * (Rp * Rpinv) := by
          rw [← hRpsq]
          simp only [Matrix.mul_assoc]
      _ = 1 := by rw [h1, h2, Matrix.one_mul]
  have hQR : (Q * Rp * Qᵀ) * (Q * Rp * Qᵀ) = M * Mᵀ := by
    calc (Q * Rp * Qᵀ) * (Q * Rp * Qᵀ)
        = Q * Rp * (Qᵀ * Q) * Rp * Qᵀ := by simp only [Matrix.mul_assoc]
      _ = Q * (Rp * Rp) * Qᵀ := by
          rw [hQ]
          simp only [Matrix.mul_assoc, Matrix.mul_one, Matrix.one_mul]
      _ = M * (Rpinv * (Mᵀ * M * Rpinv)) * Mᵀ := by
          rw [hRpsq, hQdef, hQT]
          simp only [Matrix.mul_assoc]
      _ = M * (Rpinv * Rp * (Rp * Rpinv)) * Mᵀ := by
          rw [← hRpsq]
          simp only [Matrix.mul_assoc]
      _ = M * Mᵀ := by rw [h1, h2, Matrix.one_mul, Matrix.mul_one]
  have hPSD : (Q * Rp * Qᵀ).PosSemidef := by
    have hS : hRp.sqrt * hRp.sqrt = Rp := hRp.sqrt_mul_self
    have hSH : hRp.sqrtᴴ = hRp.sqrt := hRp.posSemidef_sqrt.1
    have hform : Q * Rp * Qᵀ = (Q * hRp.sqrt) * (Q * hRp.sqrt)ᴴ := by
      rw [Matrix.conjTranspose_mul, hSH, conjTranspose_eq_transpose_real]
      calc Q * Rp * Qᵀ = Q * (hRp.sqrt * hRp.sqrt) * Qᵀ := by rw [hS]
        _ = Q * hRp.sqrt * (hRp.sqrt * Qᵀ) := by simp only [Matrix.mul_assoc]
    rw [hform]
    exact Matrix.posSemidef_self_mul_conjTranspose _
  have hEq : R = Q * Rp * Qᵀ := by
    refine hR.eq_of_sq_eq_sq hPSD ?_
    rw [pow_two, pow_two, hRsq, hQR]
  rw [hEq, Matrix.trace_mul_cycle, hQ, Matrix.one_mul]

theorem tfNorm_sub_comm (x y : Fin d → ℝ) :
    tfNorm (fun i => x i - y i) = tfNorm (fun i => y i - x i) := by
  unfold tfNorm
  congr 1
  exact Finset.sum_congr rfl fun i _ => by ring

/-- C4: for image batches `A`, `B` of equal size, an image-wise classifier
`g` and a split count `n` dividing the batch size,
`frechet_classifier_distance(A, B, f, n) = frechet_classifier_distance(B, A, f, n)`
— the Fréchet distance is symmetric in its two image arguments.  `sv1, sv2`
are the engine SVDs arising in the `(A, B)` call and `sv1p, sv2p` those of the
`(B, A)` call, each assumed to satisfy the SVD contract with spectrum above
`EPS` (so the `eps`-clamp is inactive; that clamp is the source of the
claim's "within numerical tolerance" proviso). -/
theorem claim_C4 {α : Type} {d : ℕ} (A B : List α) (g : α → (Fin d → ℝ)) (n : ℕ)
    (sv1 sv2 sv1p sv2p : SVD d)
    (hlen : A.length = B.length) (hdA : n ∣ A.length) (hdB : n ∣ B.length)
    (hv1 : SVDok sv1 (covUnbiased (A.map g)))
    (hv2 : SVDok sv2 (symmetric_matrix_square_root sv1 EPS *
        (covUnbiased (B.map g) * symmetric_matrix_square_root sv1 EPS)))
    (hv1p : SVDok sv1p (covUnbiased (B.map g)))
    (hv2p : SVDok sv2p (symmetric_matrix_square_root sv1p EPS *
        (covUnbiased (A.map g) * symmetric_matrix_square_root sv1p EPS))) :
    frechet_classifier_distance A B (List.map g) n sv1 sv2 =
      frechet_classifier_distance B A (List.map g) n sv1p sv2p := by
  have hS1 := sq_of_SVDok hv1
  have hS1p := sq_of_SVDok hv1p
  have hT1 := transpose_of_SVDok hv1
  have hT1p := transpose_of_SVDok hv1p
  have hMT : (symmetric_matrix_square_root sv1 EPS * symmetric_matrix_square_root sv1p EPS)ᵀ
      = symmetric_matrix_square_root sv1p EPS * symmetric_matrix_square_root sv1 EPS := by
    rw [Matrix.transpose_mul, hT1, hT1p]
  have htr : trace_sqrt_product sv1 sv2 = trace_sqrt_product sv1p sv2p := by
    unfold trace_sqrt_product
    refine trace_psd_sqrt_prod _ _
      (symmetric_matrix_square_root sv1 EPS * symmetric_matrix_square_root sv1p EPS)
      (sqrtInv sv2p) (posSemidef_of_SVDok hv2) (posSemidef_of_SVDok hv2p) ?_ ?_
      (sqrt_mul_sqrtInv hv2p).1 (sqrt_mul_sqrtInv hv2p).2 (sqrtInv_transpose sv2p)
    · rw [sq_of_SVDok hv2, hMT, ← hS1p]
      simp only [Matrix.mul_assoc]
    · rw [sq_of_SVDok hv2p, hMT, ← hS1]
      simp only [Matrix.mul_assoc]
  rw [frechet_eval A B g n sv1 sv2 hdA hdB, frechet_eval B A g n sv1p sv2p hdB hdA]
  have hcast : (B.map g).length = (A.map g).length := by simp [hlen]
  rw [hcast, htr, tfNorm_sub_comm (actMean (B.map g)) (actMean (A.map g)),
    add_comm (covWith (B.map g) (actMean (B.map g)) ((A.map g).length))
      (covWith (A.map g) (actMean (A.map g)) ((A.map g).length))]

/-- C4 witness: the concrete batches `[0,1,2]` and `[0,2,4]` (covariances 1
and 4), feature dimension 1, split count 1, with the four concrete SVDs. -/
theorem claim_C4_witness :
    ([0, 1, 2] : List ℝ).length = ([0, 2, 4] : List ℝ).length ∧
    SVDok ⟨1, fun _ => 1, 1⟩
        (covUnbiased (([0, 1, 2] : List ℝ).map fun x (_ : Fin 1) => x)) ∧
    SVDok ⟨1, fun _ => 4, 1⟩
        (symmetric_matrix_square_root ⟨1, fun _ => 1, 1⟩ EPS *
          (covUnbiased (([0, 2, 4] : List ℝ).map fun x (_ : Fin 1) => x) *
            symmetric_matrix_square_root ⟨1, fun _ => 1, 1⟩ EPS)) ∧
    SVDok ⟨1, fun _ => 4, 1⟩
        (covUnbiased (([0, 2, 4] : List ℝ).map fun x (_ : Fin 1) => x)) ∧
    SVDok ⟨1, fun _ => 4, 1⟩
        (symmetric_matrix_square_root ⟨1, fun _ => 4, 1⟩ EPS *
          (covUnbiased (([0, 1, 2] : List ℝ).map fun x (_ : Fin 1) => x) *
            symmetric_matrix_square_root ⟨1, fun _ => 4, 1⟩ EPS)) ∧
    frechet_classifier_distance [0, 1, 2] [0, 2, 4]
        (List.map fun x (_ : Fin 1) => x) 1 ⟨1, fun _ => 1, 1⟩ ⟨1, fun _ => 4, 1⟩ =
      frechet_classifier_distance [0, 2, 4] [0, 1, 2]
        (List.map fun x (_ : Fin 1) => x) 1 ⟨1, fun _ => 4, 1⟩ ⟨1, fun _ => 4, 1⟩ := by
  have hcov1 : covUnbiased (([0, 1, 2] : List ℝ).map fun x (_ : Fin 1) => x) =
      (1 : Matrix (Fin 1) (Fin 1) ℝ) * Matrix.diagonal (fun _ => 1) *
        (1 : Matrix (Fin 1) (Fin 1) ℝ)ᵀ := by
    ext i j
    fin_cases i
    fin_cases j
    simp [covUnbiased, covWith, actMean]
    norm_num
  have hcov4 : covUnbiased (([0, 2, 4] : List ℝ).map fun x (_ : Fin 1) => x) =
      Matrix.diagonal (fun _ => 4) := by
    ext i j
    fin_cases i
    fin_cases j
    simp [covUnbiased, covWith, actMean]
    norm_num
  have hA1 : symmetric_matrix_square_root (⟨1, fun _ => 1, 1⟩ : SVD 1) EPS = 1 := by
    have hone : clampSqrt EPS (fun _ : Fin 1 => (1 : ℝ)) = fun _ => 1 := by
      funext i
      have : ¬ (1 : ℝ) < EPS := by norm_num [EPS]
      simp [clampSqrt, this]
    simp [symmetric_matrix_square_root, hone]
  have hA4 : symmetric_matrix_square_root (⟨1, fun _ => 4, 1⟩ : SVD 1) EPS =
      Matrix.diagonal (fun _ => Real.sqrt 4) := by
    have hfour : clampSqrt EPS (fun _ : Fin 1 => (4 : ℝ)) = fun _ => Real.sqrt 4 := by
      funext i
      have : ¬ (4 : ℝ) < EPS := by norm_num [EPS]
      simp [clampSqrt, this]
    simp [symmetric_matrix_square_root, hfour]
  have h1 : SVDok ⟨1, fun _ => 1, 1⟩
      (covUnbiased (([0, 1, 2] : List ℝ).map fun x (_ : Fin 1) => x)) := by
    exact ⟨hcov1, rfl, by simp, fun i => by norm_num [EPS]⟩
  have h2 : SVDok ⟨1, fun _ => 4, 1⟩
      (symmetric_matrix_square_root ⟨1, fun _ => 1, 1⟩ EPS *
        (covUnbiased (([0, 2, 4] : List ℝ).map fun x (_ : Fin 1) => x) *
          symmetric_matrix_square_root ⟨1, fun _ => 1, 1⟩ EPS)) := by
    refine ⟨?_, rfl, by simp, fun i => by norm_num [EPS]⟩
    rw [hA1, hcov4]
    simp
  have h1p : SVDok ⟨1, fun _ => 4, 1⟩
      (covUnbiased (([0, 2, 4] : List ℝ).map fun x (_ : Fin 1) => x)) := by
    refine ⟨?_, rfl, by simp, fun i => by norm_num [EPS]⟩
    rw [hcov4]
    simp
  have h2p : SVDok ⟨1, fun _ => 4, 1⟩
      (symmetric_matrix_square_root ⟨1, fun _ => 4, 1⟩ EPS *
        (covUnbiased (([0, 1, 2] : List ℝ).map fun x (_ : Fin 1) => x) *
          symmetric_matrix_square_root ⟨1, fun _ => 4, 1⟩ EPS)) := by
    refine ⟨?_, rfl, by simp, fun i => by norm_num [EPS]⟩
    rw [hA4, hcov1]
    ext i j
    fin_cases i
    fin_cases j
    simp [Matrix.mul_apply]
  exact ⟨rfl, h1, h2, h1p, h2p,
    claim_C4 [0, 1, 2] [0, 2, 4] (fun x (_ : Fin 1) => x) 1 ⟨1, fun _ => 1, 1⟩
      ⟨1, fun _ => 4, 1⟩ ⟨1, fun _ => 4, 1⟩ ⟨1, fun _ => 4, 1⟩ rfl (by decide) (by decide)
      h1 h2 h1p h2p⟩

/-! ## Tensor model: dtypes, ranks, and the error-checked KL divergence -/

/-- The dtype tags relevant to the embedded checks. -/
inductive NpDtype
  | float32
  | float64
  | int32
  | int64
deriving DecidableEq

/-- `dtype.is_floating`. -/
def NpDtype.isFloating : NpDtype → Bool
  | .float32 => true
  | .float64 => true
  | _ => false

/-- A tensor: dtype tag, shape, flat row-major data (values idealised as
reals). -/
structure Tensor where
  dtype : NpDtype
  shape : List ℕ
  data : List ℝ

/-- `t.shape.ndims`. -/
def Tensor.rank (t : Tensor) : ℕ := t.shape.length

/-- The rows of a rank-2 tensor: `shape[0]` chunks of `shape[1]` entries. -/
def Tensor.rows (t : Tensor) : List (List ℝ) :=
  splitList t.data t.shape.headI t.shape.tail.headI

/-- The two failure modes of `_kl_divergence`: the `ValueError` raised for a
non-floating input, and the `assert_has_rank` shape failure. -/
inductive KlError
  | typeError
  | shapeError
deriving DecidableEq

/-- `_kl_divergence(p, p_logits, q)` (`gan_metrics.py` lines 107-134): the
dtype loop over `[p, p_logits, q]` raises for any non-floating input; then
`p` and `p_logits` must have rank 2 and `q` rank 1; then the result is
`tf.reduce_sum(p * (tf.nn.log_softmax(p_logits) - tf.log(q)), axis=1)`,
one entry per row of `p`. -/
noncomputable def kl_divergence (p p_logits q : Tensor) : Except KlError (List ℝ) :=
  if ¬ (p.dtype.isFloating ∧ p_logits.dtype.isFloating ∧ q.dtype.isFloating) then
    .error .typeError
  else if ¬ (p.rank = 2 ∧ p_logits.rank = 2 ∧ q.rank = 1) then
    .error .shapeError
  else
    .ok (List.zipWith (fun pr lr => rowKl pr (logSoftmaxRow lr) q.data) p.rows p_logits.rows)

/-- C8: the KL computation inside `classifier_score` fails with the
`TypeError`-equivalent error when any of `p`, `logits`, `q` is not
floating-point, with a shape error when `p` or `logits` is not rank-2 or `q`
not rank-1, and otherwise returns one KL value per row of `p` (the
elementwise product additionally needs `p` and `logits` to agree on the row
count, which TensorFlow enforces at the multiplication). -/
theorem claim_C8 (p pl q : Tensor) :
    (¬ (p.dtype.isFloating ∧ pl.dtype.isFloating ∧ q.dtype.isFloating) →
      kl_divergence p pl q = .error .typeError) ∧
    ((p.dtype.isFloating ∧ pl.dtype.isFloating ∧ q.dtype.isFloating) →
      ¬ (p.rank = 2 ∧ pl.rank = 2 ∧ q.rank = 1) →
      kl_divergence p pl q = .error .shapeError) ∧
    ((p.dtype.isFloating ∧ pl.dtype.isFloating ∧ q.dtype.isFloating) →
      (p.rank = 2 ∧ pl.rank = 2 ∧ q.rank = 1) →
      p.shape.headI = pl.shape.headI →
      ∃ l, kl_divergence p pl q = .ok l ∧ l.length = p.shape.headI) := by
  refine ⟨fun hbad => ?_, fun hok hbad => ?_, fun hok hrk hhead => ?_⟩
  · rw [kl_divergence, if_pos hbad]
  · rw [kl_divergence, if_neg (not_not.mpr hok), if_pos hbad]
  · refine ⟨_, by rw [kl_divergence, if_neg (not_not.mpr hok), if_neg (not_not.mpr hrk)], ?_⟩
    rw [List.length_zipWith, Tensor.rows, Tensor.rows, splitList_length, splitList_length,
      hhead, min_self]

/-- C8 witness: floating rank-2 `p`, `logits` and rank-1 `q` produce one KL
value per row of `p` (two rows here). -/
theorem claim_C8_witness :
    ((⟨.float64, [2, 2], [1, 0, 0, 1]⟩ : Tensor).dtype.isFloating ∧
      (⟨.float64, [2, 2], [0, 1, 2, 3]⟩ : Tensor).dtype.isFloating ∧
      (⟨.float64, [2], [1/2, 1/2]⟩ : Tensor).dtype.isFloating) ∧
    ∃ l, kl_divergence ⟨.float64, [2, 2], [1, 0, 0, 1]⟩ ⟨.float64, [2, 2], [0, 1, 2, 3]⟩
        ⟨.float64, [2], [1/2, 1/2]⟩ = .ok l ∧ l.length = 2 :=
  ⟨by refine ⟨rfl, rfl, rfl⟩,
    (claim_C8 ⟨.float64, [2, 2], [1, 0, 0, 1]⟩ ⟨.float64, [2, 2], [0, 1, 2, 3]⟩
        ⟨.float64, [2], [1/2, 1/2]⟩).2.2 ⟨rfl, rfl, rfl⟩ ⟨rfl, rfl, rfl⟩ rfl⟩

/-! ## `run_inception` activation post-processing (C5) -/

/-- Modelled from the spec: `flatten` (imported from `tefla.core.layers`,
which is not among the provided sources) "flattens trailing dimensions into
one feature axis": the result is rank-2 `[batch, prod(rest)]` with the data
unchanged. -/
def flatten (t : Tensor) : Tensor :=
  ⟨t.dtype, [t.shape.headI, t.shape.tail.prod], t.data⟩

/-- The activation post-processing of `run_inception` (`gan_metrics.py`
lines 202-205).  The source guard is `if tf.rank(activations) != 2:`;
`tf.rank` yields a graph *tensor*, and comparing a TF-1.x tensor to the
Python int `2` with `!=` falls back to object identity and is always `True`,
so `flatten` is applied unconditionally.  On a rank-2 tensor `flatten` is
the identity, so the observable behaviour coincides with the conditional
reading. -/
def run_inception_post (activations : Tensor) : Tensor :=
  flatten activations

/-- C5: `run_inception` returns the classifier output unchanged when it is
already rank-2, and otherwise returns exactly the flattening of the output
into `[batch, prod(trailing)]` (which always has rank 2). -/
theorem claim_C5 (t : Tensor) :
    (t.rank = 2 → run_inception_post t = t) ∧
    run_inception_post t = flatten t ∧ (flatten t).rank = 2 := by
  refine ⟨fun h2 => ?_, rfl, rfl⟩
  obtain ⟨dt, sh, da⟩ := t
  match sh, h2 with
  | [a, b], _ => simp [run_inception_post, flatten]

/-- C5 witness: a rank-2 activation tensor passes through unchanged. -/
theorem claim_C5_witness :
    (⟨.float32, [2, 3], [0, 1, 2, 3, 4, 5]⟩ : Tensor).rank = 2 ∧
      run_inception_post ⟨.float32, [2, 3], [0, 1, 2, 3, 4, 5]⟩ =
        ⟨.float32, [2, 3], [0, 1, 2, 3, 4, 5]⟩ :=
  ⟨rfl, (claim_C5 ⟨.float32, [2, 3], [0, 1, 2, 3, 4, 5]⟩).1 rfl⟩

/-! ## `preprocess_image` (C7) -/

/-- A 3-D (single image) or 4-D (batch) input to `preprocess_image`; an
image is its flat list of pixel values. -/
inductive Images
  | single (img : List ℝ)
  | batch (b : List (List ℝ))

/-- The 4-D payload of an `Images` value after promotion to a batch. -/
def Images.batchData : Images → List (List ℝ)
  | .single img => [img]
  | .batch b => b

/-- `(resized - 128.0) / 128.0` on one pixel (`gan_metrics.py` line 101). -/
noncomputable def scalePixel (x : ℝ) : ℝ := (x - 128) / 128

/-- Every pixel of every image in the batch has value `c`. -/
def ConstBatch (b : List (List ℝ)) (c : ℝ) : Prop :=
  ∀ img ∈ b, ∀ x ∈ img, x = c

/-- `preprocess_image(images, height, width)` (`gan_metrics.py` lines
76-104).  `tf.to_float` is the identity over `ℝ`; `resize` is the engine's
`tf.image.resize_bilinear` (an opaque external op, abstracted as a function
on batches); a 3-D input is expanded to a batch of one (`tf.expand_dims`)
and squeezed back (`tf.squeeze`) after resizing and rescaling. -/
noncomputable def preprocess_image (resize : List (List ℝ) → List (List ℝ)) :
    Images → Images
  | .single img => .single ((resize [img]).map (List.map scalePixel)).headI
  | .batch b => .batch ((resize b).map (List.map scalePixel))

theorem constBatch_preprocess (resize : List (List ℝ) → List (List ℝ))
    (hres : ∀ (b : List (List ℝ)) (c : ℝ), ConstBatch b c → ConstBatch (resize b) c)
    (b : List (List ℝ)) (c : ℝ) (hb : ConstBatch b c) :
    ConstBatch ((resize b).map (List.map scalePixel)) (scalePixel c) := by
  intro img himg x hx
  obtain ⟨img0, himg0, rfl⟩ := List.mem_map.mp himg
  obtain ⟨x0, hx0, rfl⟩ := List.mem_map.mp hx
  rw [hres b c hb img0 himg0 x0 hx0]

/-- C7: `preprocess_image` maps a constant-128 input batch to the constant-0
output, a constant-255 batch to the constant `(255-128)/128` output, a
constant-0 batch to the constant `-1` output (given only that bilinear
resizing preserves constant batches), and processes a single 3-D image by
promoting it to a batch of one and demoting the result back. -/
theorem claim_C7 (resize : List (List ℝ) → List (List ℝ))
    (hres : ∀ (b : List (List ℝ)) (c : ℝ), ConstBatch b c → ConstBatch (resize b) c) :
    (∀ b, ConstBatch b 128 → ∃ b2,
      preprocess_image resize (.batch b) = .batch b2 ∧ ConstBatch b2 0) ∧
    (∀ b, ConstBatch b 255 → ∃ b2,
      preprocess_image resize (.batch b) = .batch b2 ∧ ConstBatch b2 ((255 - 128) / 128)) ∧
    (∀ b, ConstBatch b 0 → ∃ b2,
      preprocess_image resize (.batch b) = .batch b2 ∧ ConstBatch b2 (-1)) ∧
    ∀ img, preprocess_image resize (.single img) =
      .single (preprocess_image resize (.batch [img])).batchData.headI := by
  refine ⟨fun b hb => ⟨_, rfl, ?_⟩, fun b hb => ⟨_, rfl, ?_⟩, fun b hb => ⟨_, rfl, ?_⟩,
    fun img => rfl⟩
  · have := constBatch_preprocess resize hres b 128 hb
    have h0 : scalePixel 128 = 0 := by norm_num [scalePixel]
    rwa [h0] at this
  · have := constBatch_preprocess resize hres b 255 hb
    have h0 : scalePixel 255 = (255 - 128) / 128 := rfl
    rwa [h0] at this
  · have := constBatch_preprocess resize hres b 0 hb
    have h0 : scalePixel 0 = -1 := by norm_num [scalePixel]
    rwa [h0] at this

/-- C7 witness: the identity resize (which preserves constant batches) on the
one-pixel constant-128 batch yields the constant-0 batch. -/
theorem claim_C7_witness :
    (∀ (b : List (List ℝ)) (c : ℝ), ConstBatch b c → ConstBatch (id b) c) ∧
    ConstBatch [[(128 : ℝ)]] 128 ∧
    ∃ b2, preprocess_image id (.batch [[(128 : ℝ)]]) = .batch b2 ∧ ConstBatch b2 0 := by
  have hres : ∀ (b : List (List ℝ)) (c : ℝ), ConstBatch b c → ConstBatch (id b) c :=
    fun b c h => h
  have hb : ConstBatch [[(128 : ℝ)]] 128 := by
    intro img himg x hx
    simp only [List.mem_singleton] at himg
    subst himg
    simpa using hx
  exact ⟨hres, hb, (claim_C7 id hres).1 [[(128 : ℝ)]] hb⟩

/-! ## `prediction.py`: the ensembler and the crop predictor -/

/-- `scipy.stats.mstats.gmean` along the model axis at one position:
geometric mean, computed (as scipy does) as `exp(mean(log x_i))`. -/
noncomputable def gmeanR (l : List ℝ) : ℝ := Real.exp (meanR (l.map Real.log))

/-- The zero-guarded log `np.log(x + (x == 0))` of `_ensemble`'s `log_mean`
branch: exact zeros are replaced by 1 before the log. -/
noncomputable def logZeroGuard (x : ℝ) : ℝ := Real.log (x + if x = 0 then 1 else 0)

/-- `_ensemble(en_type, x)` (`prediction.py` lines 165-170): dictionary
dispatch on the ensemble-type name over the stacked prediction rows (model
axis outermost); a missing key raises `KeyError` — the ConfigurationError of
the spec's taxonomy — modelled as `none`. -/
noncomputable def ensemble (en_type : String) (x : List (List ℝ)) : Option (List ℝ) :=
  if en_type = "mean" then some (colMean x)
  else if en_type = "gmean" then some (x.transpose.map gmeanR)
  else if en_type = "log_mean" then some (colMean (x.map (List.map logZeroGuard)))
  else none

/-- C6: `_ensemble` (reached through `EnsemblePredictor.predict`) fails for
every ensemble-type name outside `mean`, `gmean`, `log_mean`, and for the
three recognised names combines the stacked predictions along the model axis
with, respectively, the arithmetic mean, the geometric mean, and the mean of
the zero-guarded logs `log(x + (x == 0))`. -/
theorem claim_C6 (t : String) (x : List (List ℝ)) :
    (t ∉ (["mean", "gmean", "log_mean"] : List String) → ensemble t x = none) ∧
    ensemble "mean" x = some (x.transpose.map fun col => col.sum / (col.length : ℝ)) ∧
    ensemble "gmean" x = some (x.transpose.map fun col =>
      Real.exp ((col.map Real.log).sum / ((col.map Real.log).length : ℝ))) ∧
    ensemble "log_mean" x = some
      ((x.map (List.map fun v => Real.log (v + if v = 0 then 1 else 0))).transpose.map
        fun col => col.sum / (col.length : ℝ)) := by
  refine ⟨fun hne => ?_, ?_, ?_, ?_⟩
  · simp only [List.mem_cons, List.mem_singleton, not_or] at hne
    simp [ensemble, hne.1, hne.2.1, hne.2.2]
  · simp [ensemble, colMean, meanR]
  · simp [ensemble, gmeanR, meanR]
  · simp only [ensemble, String.reduceEq, if_false, if_true, reduceIte]
    rfl

/-- C6 witness: the unrecognised name `median` is rejected. -/
theorem claim_C6_witness :
    ("median" ∉ (["mean", "gmean", "log_mean"] : List String)) ∧
      ensemble "median" [[1, 3], [3, 5]] = none :=
  ⟨by decide, (claim_C6 "median" [[1, 3], [3, 5]]).1 (by decide)⟩

/-- A numpy array as handed around by the predictors: dtype tag plus values
(the layout beyond the model axis does not matter to the claims). -/
structure NpArray where
  dtype : NpDtype
  data : List ℝ

/-- The stacked array `np.array(multiple_predictions, dtype=np.float32)`:
one dtype for the whole stack, one row per member model. -/
structure Stacked where
  dtype : NpDtype
  rows : List (List ℝ)

/-- Result dtype of `np.mean` / `gmean` / the guarded-log mean along an
axis: floating dtypes are preserved, integer input is promoted to
`float64`. -/
def meanResultDtype : NpDtype → NpDtype
  | .float32 => .float32
  | .float64 => .float64
  | _ => .float64

/-- `_ensemble` applied to a stacked array, tracking the numpy result
dtype. -/
noncomputable def ensembleStacked (en_type : String) (x : Stacked) : Option NpArray :=
  (ensemble en_type x.rows).map fun r => ⟨meanResultDtype x.dtype, r⟩

/-- `EnsemblePredictor.predict(X, ensemble_type)` (`prediction.py` lines
147-162): collect each member's predictions, stack them with
`np.array(..., dtype=np.float32)` — fixing the stack's dtype to `float32`
whatever the members produced (value rounding is not modelled; dtype
propagation is) — and combine with `_ensemble`. -/
noncomputable def EnsemblePredictor_predict (preds : List NpArray)
    (ensemble_type : String) : Option NpArray :=
  ensembleStacked ensemble_type ⟨NpDtype.float32, preds.map NpArray.data⟩

/-- C9: whatever dtypes the member predictors produce and whichever
ensemble type is chosen, any array returned by `EnsemblePredictor.predict`
has dtype `float32`, because the stack is cast to `float32` before
combining and all three combiners preserve a floating dtype. -/
theorem claim_C9 (preds : List NpArray) (ensemble_type : String) :
    (EnsemblePredictor_predict preds ensemble_type).map NpArray.dtype =
      if ensemble_type ∈ (["mean", "gmean", "log_mean"] : List String) then
        some NpDtype.float32
      else none := by
  unfold EnsemblePredictor_predict ensembleStacked ensemble
  by_cases h1 : ensemble_type = "mean" <;> by_cases h2 : ensemble_type = "gmean" <;>
    by_cases h3 : ensemble_type = "log_mean" <;>
      simp [h1, h2, h3, meanResultDtype]

/-- `CropPredictor._real_predict(X, sess)` (`prediction.py` lines 121-132).
The crop boxes come from `util.get_bbox_10crop` and each forward pass from
the wrapped `OneCropPredictor` — both outside the provided sources — so they
enter abstractly: `predictWith (some bbox)` is one cropped pass and
`predictWith none` the plain pass.  A Python body that falls through both
the `if` and the `elif` returns `None`. -/
noncomputable def CropPredictor_real_predict {β : Type} (number_of_crops : ℤ)
    (bboxs : List β) (predictWith : Option β → List ℝ) : Option (List ℝ) :=
  if 1 < number_of_crops then
    some (colMean (bboxs.map fun bbox => predictWith (some bbox)))
  else if number_of_crops = 1 then
    some (predictWith none)
  else
    none

/-- C10: with `number_of_crops < 1` (zero or negative) the prediction body
handles neither branch and returns no prediction at all (`None`) instead of
raising. -/
theorem claim_C10 {β : Type} (number_of_crops : ℤ) (bboxs : List β)
    (predictWith : Option β → List ℝ) (h : number_of_crops < 1) :
    CropPredictor_real_predict number_of_crops bboxs predictWith = none := by
  rw [CropPredictor_real_predict, if_neg (by omega), if_neg (by omega)]

/-- C10 witness: `number_of_crops = 0` yields `None`. -/
theorem claim_C10_witness :
    (0 : ℤ) < 1 ∧
      CropPredictor_real_predict 0 ([] : List ℕ) (fun _ => [1]) = none :=
  ⟨by decide, claim_C10 0 ([] : List ℕ) (fun _ => [1]) (by decide)⟩

end Tefla
